import Mathlib

/-!
A shallow embedding of the AIDA CoNLL-YAGO to Wikidata conversion tool
(src/main.rs) and proofs about its behaviour.

Modelling conventions:
* Rust strings are modelled as lists of Unicode scalar values (List Char);
  the source counts offsets with chars().count(), which is List.length here.
* The NFC normalisation performed by the external unicode_normalization
  crate is an external collaborator; the embedding passes it around as an
  abstract function nfc : Str → Str.  Concrete instances use the identity,
  which agrees with real NFC on all ASCII data used in concrete statements.
* u32 values are modelled as Nat; no statement below exercises values
  anywhere near 2^32, where the source would panic (id parsing) or
  truncate (offset casts).
* HashMap / HashSet are modelled as association lists / lists with
  first-match lookup, which preserves the observable lookup / membership
  behaviour, including the first-write-wins try_insert used in main.
* The random uuid attached to each DataPoint is generated by an external
  collaborator (uuid crate) and carries no information; it is omitted
  from the record.
* write_dataset performs columnar encoding (out of scope per the spec)
  and a sequence of filesystem effects; the latter are modelled as an
  event trace: the file is created at the final path, one row group is
  written (the source wraps the whole split in a single chunk), and the
  footer is written by writer.end.  Each step can fail (every call is
  unwrapped), which corresponds to cutting the trace early.
-/

namespace Aida

/-- Strings as lists of Unicode scalar values. -/
abbrev Str : Type := List Char

/-- Embed a Lean string literal as a Str. -/
def str (s : String) : Str := s.toList

/-- The entity tag of a token (enum EntityType in the source). -/
inductive EntityType : Type
  | OutOfDistribution : EntityType
  | InDistribution : Str → EntityType
  | NoTag : EntityType
deriving DecidableEq, Repr

/-- struct TokenRecord. -/
structure TokenRecord : Type where
  document_id : Nat
  token : Str
  entity : EntityType
deriving DecidableEq, Repr

/-- enum Split. -/
inductive Split : Type
  | Train : Split
  | Validation : Split
  | Test : Split
deriving DecidableEq, Repr

/-- struct Entity: a mention span with optional resolved identifiers.
The source field named end is called end_ here (end is a Lean keyword). -/
structure Entity : Type where
  start : Nat
  end_ : Nat
  pageid : Option Nat
  qid : Option Nat
deriving DecidableEq, Repr

/-- struct DataPoint (uuid omitted, see the header comment). -/
structure DataPoint : Type where
  document_id : Nat
  text : Str
  entities : List Entity
deriving DecidableEq, Repr

/-- A record of the external wiki2qid mapping stream (struct MappingRecord). -/
structure MappingRecord : Type where
  title : Str
  pageid : Nat
  qid : Option Nat
deriving DecidableEq, Repr

/-- The resolved-identifier table HashMap String (u32, Option u32),
modelled as an association list with first-match lookup. -/
abbrev Mapping : Type := List (Str × (Nat × Option Nat))

/-- First-match association lookup (HashMap::get). -/
def lookup : Mapping → Str → Option (Nat × Option Nat)
  | [], _ => none
  | (k, v) :: rest, t => if k = t then some v else lookup rest t

/-- Rust line.split under a single-character separator, here the tab.
Always returns at least one field. -/
def splitTab : Str → List Str
  | [] => [[]]
  | c :: rest =>
    match splitTab rest with
    | [] => [[c]]
    | f :: fs => if c = '\t' then [] :: f :: fs else (c :: f) :: fs

/-- Decimal digit string to Nat (str::parse on the digits captured by the
regex; overflow of u32 is not modelled, see the header comment). -/
def digitsToNat (ds : Str) : Nat :=
  ds.foldl (fun n c => n * 10 + (c.toNat - 48)) 0

/-- Matcher for the tail of the DOCSTART regex after the mandatory space:
the remainder must contain a closing parenthesis, where a backslash
escapes the following character (which the regex dot forbids to be a
newline) and an unescaped closing parenthesis ends the match. -/
def tailOk : Str → Bool
  | [] => false
  | ')' :: _ => true
  | '\\' :: [] => false
  | '\\' :: c :: rest => if c = '\n' then false else tailOk rest
  | _ :: rest => tailOk rest

/-- After the optional split marker the regex requires a literal space and
then the tail described by tailOk. -/
def afterMarker : Str → Bool
  | ' ' :: rest => tailOk rest
  | _ => false

/-- Attempt to match the DOCSTART regex at the beginning of s, with the
leftmost-first backtracking semantics of the regex crate: the digit run
is maximal (no shorter run can be followed by the marker or the space),
the alternation prefers testa, then testb, then the empty marker.
Returns the parsed document id and the captured split marker
(the empty string when the optional group did not participate). -/
def matchDocstartAt (s : Str) : Option (Nat × Str) :=
  if s.take 12 = str "-DOCSTART- (" then
    match (s.drop 12).takeWhile Char.isDigit with
    | [] => none
    | d :: ds =>
      let rest := (s.drop 12).drop (d :: ds).length
      if rest.take 5 = str "testa" ∧ afterMarker (rest.drop 5) = true then
        some (digitsToNat (d :: ds), str "testa")
      else if rest.take 5 = str "testb" ∧ afterMarker (rest.drop 5) = true then
        some (digitsToNat (d :: ds), str "testb")
      else if afterMarker rest = true then
        some (digitsToNat (d :: ds), [])
      else none
  else none

/-- Unanchored regex search (Regex::captures): the leftmost position at
which the DOCSTART pattern matches. -/
def findDocstart : Str → Option (Nat × Str)
  | [] => none
  | c :: rest =>
    match matchDocstartAt (c :: rest) with
    | some r => some r
    | none => findDocstart rest

/-- The captured split marker decides the split (match in parse_conll). -/
def markerToSplit (m : Str) : Split :=
  if m = str "testa" then Split.Validation
  else if m = str "testb" then Split.Test
  else Split.Train

/-- The mutable state of the parse_conll loop. -/
structure ParseState : Type where
  document_id : Nat
  document_split : Split
  train : List TokenRecord
  validation : List TokenRecord
  test : List TokenRecord
  titles : List Str
deriving DecidableEq, Repr

/-- State at entry of the loop: document id 0, split Train, everything
empty. -/
def initState : ParseState :=
  { document_id := 0, document_split := Split.Train,
    train := [], validation := [], test := [], titles := [] }

/-- split.push(record): append the token to the sequence selected by the
current document_split. -/
def pushToken (st : ParseState) (tok : TokenRecord) : ParseState :=
  match st.document_split with
  | Split.Train => { st with train := st.train ++ [tok] }
  | Split.Validation => { st with validation := st.validation ++ [tok] }
  | Split.Test => { st with test := st.test ++ [tok] }

/-- titles.insert(title): HashSet insertion, modelled by membership. -/
def insertTitle (ts : List Str) (t : Str) : List Str :=
  if t ∈ ts then ts else ts ++ [t]

/-- One iteration of the parse_conll loop on one line. -/
def parseLine (nfc : Str → Str) (st : ParseState) (line : Str) : ParseState :=
  if line.length = 0 then st
  else
    match (if (splitTab line).length = 1
           then findDocstart (splitTab line).headI else none) with
    | some (id, marker) =>
      { st with document_id := id, document_split := markerToSplit marker }
    | none =>
      if (splitTab line).length = 4 then
        pushToken st
          ⟨st.document_id, nfc (splitTab line).headI, EntityType.OutOfDistribution⟩
      else if 4 < (splitTab line).length then
        { pushToken st
            ⟨st.document_id, nfc (splitTab line).headI,
             EntityType.InDistribution (nfc (((splitTab line).getD 4 []).drop 29))⟩
          with titles := insertTitle st.titles (nfc (((splitTab line).getD 4 []).drop 29)) }
      else
        pushToken st ⟨st.document_id, nfc (splitTab line).headI, EntityType.NoTag⟩

/-- fn parse_conll, on the list of lines of the input file. -/
def parse_conll (nfc : Str → Str) (lines : List Str) :
    (List TokenRecord × List TokenRecord × List TokenRecord) × List Str :=
  let st := lines.foldl (parseLine nfc) initState
  ((st.train, st.validation, st.test), st.titles)

/-- A line that parse_conll treats as a document boundary: one tab-field
and a successful regex search.  (The empty line is never a boundary:
findDocstart on the empty field fails.) -/
abbrev isBoundary (line : Str) : Prop :=
  (splitTab line).length = 1 ∧ (findDocstart (splitTab line).headI).isSome = true

/-- Itertools group_by: maximal runs of consecutive elements with equal
keys, each labelled by the key shared by its members. -/
def group_by {α β : Type} [DecidableEq β] (key : α → β) : List α → List (β × List α)
  | [] => []
  | a :: as =>
    match group_by key as with
    | [] => [(key a, [a])]
    | (k, g) :: rest =>
      if key a = k then (k, a :: g) :: rest else (key a, [a]) :: (k, g) :: rest

/-- Option-valued map over a list (the iteration of generate_dataset over
document groups, where resolving a title can fail = panic). -/
def mapOpt {α β : Type} (f : α → Option β) : List α → Option (List β)
  | [] => some []
  | a :: as =>
    match f a, mapOpt f as with
    | some b, some bs => some (b :: bs)
    | _, _ => none

/-- Vec<String>::join(" "). -/
def joinSp (ts : List Str) : Str := List.intercalate [' '] ts

/-- Character slice text[a..b] counted in scalar values. -/
def slice (s : Str) (a b : Nat) : Str := (s.drop a).take (b - a)

/-- The body of the inner loop of generate_dataset on one mention group:
given the text accumulated so far, returns the extended text and the
optional mention, or none when a Candidate title is absent from the
mapping (the source unwraps and panics there). -/
def buildGroup (mapping : Mapping) (text : Str) (g : EntityType × List (Str × EntityType)) :
    Option (Str × Option Entity) :=
  match g.1 with
  | EntityType.OutOfDistribution =>
    some (text ++ (if text.isEmpty then [] else [' ']) ++ joinSp (g.2.map (fun x => x.1)),
      some ⟨text.length + (if text.isEmpty then 0 else 1),
            text.length + (if text.isEmpty then 0 else 1) +
              (joinSp (g.2.map (fun x => x.1))).length,
            none, none⟩)
  | EntityType.InDistribution title =>
    match lookup mapping title with
    | some (pageid, qid) =>
      some (text ++ (if text.isEmpty then [] else [' ']) ++ joinSp (g.2.map (fun x => x.1)),
        some ⟨text.length + (if text.isEmpty then 0 else 1),
              text.length + (if text.isEmpty then 0 else 1) +
                (joinSp (g.2.map (fun x => x.1))).length,
              some pageid, qid⟩)
    | none => none
  | EntityType.NoTag =>
    some (text ++ (if text.isEmpty then [] else [' ']) ++ joinSp (g.2.map (fun x => x.1)), none)

/-- The inner loop of generate_dataset over the mention groups of one
document, accumulating text and mentions. -/
def buildDoc (mapping : Mapping) :
    List (EntityType × List (Str × EntityType)) → Str → List Entity →
      Option (Str × List Entity)
  | [], text, ents => some (text, ents)
  | g :: gs, text, ents =>
    match buildGroup mapping text g with
    | none => none
    | some (text', e?) => buildDoc mapping gs text' (ents ++ e?.toList)

/-- fn generate_dataset: group tokens by document id, then by entity tag,
and build one DataPoint per document.  Returns none when the source
would panic on an unresolved Candidate title. -/
def generate_dataset (split : List TokenRecord) (mapping : Mapping) :
    Option (List DataPoint) :=
  mapOpt
    (fun doc : Nat × List TokenRecord =>
      match buildDoc mapping
          (group_by (fun p : Str × EntityType => p.2)
            (doc.2.map (fun x => (x.token, x.entity)))) [] [] with
      | none => none
      | some (text, ents) => some ⟨doc.1, text, ents⟩)
    (group_by (fun t => t.document_id) split)

/-- The apostrophe character. -/
def apos : Char := Char.ofNat 39

/-- The manual correction entries inserted into the mapping before the
external stream is read (main, lines 289-307). -/
def corrections : Mapping :=
  [(str "International_cricketers_of_South_African_origin", (17416221, some 258)),
   (str "Independence_Day_(film)", (52389, some 105387)),
   (str "Camelot,_Chesapeake,_Virginia", (91342, some 49222)),
   (str "SBC_Communications", (26213969, some 444015)),
   (str "Superman_(film)", (28381, some 79015)),
   (str "Rabobank_(cycling_team)", (2354465, some 6233)),
   (str "U._Chandana", (896434, some 3520028)),
   (str "LPGA_Championship", (229059, some 281917)),
   (str "Hapoel_Be" ++ [apos] ++ str "er_Sheva_A.F.C.", (5834903, some 986529))]

/-- HashMap::try_insert(...).ok(): insert only when the key is absent. -/
def try_insert (m : Mapping) (k : Str) (v : Nat × Option Nat) : Mapping :=
  if (lookup m k).isSome then m else m ++ [(k, v)]

/-- The mapping-construction loop of main: start from the corrections,
then stream the wiki2qid records, inserting an entry only when its title
is in the requested title set and no entry for it exists yet. -/
def buildMapping (titles : List Str) (wiki : List MappingRecord) : Mapping :=
  wiki.foldl
    (fun m r => if r.title ∈ titles then try_insert m r.title (r.pageid, r.qid) else m)
    corrections

/-- The first record of the external stream carrying a given title. -/
def firstWiki : List MappingRecord → Str → Option (Nat × Option Nat)
  | [], _ => none
  | r :: rest, t => if r.title = t then some (r.pageid, r.qid) else firstWiki rest t

/-- Left-biased choice on Option, used to state first-write-wins. -/
def orElseO {α : Type} (a b : Option α) : Option α :=
  match a with
  | some v => some v
  | none => b

/-- Filesystem effects of write_dataset. -/
inductive FsEvent : Type
  | create : Str → FsEvent
  | writeGroup : Str → FsEvent
  | finish : Str → FsEvent
deriving DecidableEq, Repr

/-- fn write_dataset, reduced to its filesystem effects (the columnar
encoding is out of scope per the spec): File::create at the final output
path, then the single row group write, then writer.end which writes the
footer that makes the file a valid table.  An I/O failure at any of the
unwrapped calls aborts part-way through this trace. -/
def write_dataset (split : List DataPoint) (path : Str) : List FsEvent :=
  [FsEvent.create path, FsEvent.writeGroup path, FsEvent.finish path]

/-- A file exists at path after the first k events of a trace ran. -/
abbrev fileExistsAfter (steps : List FsEvent) (k : Nat) (path : Str) : Prop :=
  FsEvent.create path ∈ steps.take k

/-- The file at path is fully committed (footer written) after the first
k events of a trace ran. -/
abbrev committedAfter (steps : List FsEvent) (k : Nat) (path : Str) : Prop :=
  FsEvent.finish path ∈ steps.take k

/-- The in-memory pipeline of main: parse, build the mapping, assemble the
three splits.  none when any generate_dataset call panics; note that all
three assemblies happen before main writes any file. -/
def pipeline (nfc : Str → Str) (lines : List Str) (wiki : List MappingRecord) :
    Option (List DataPoint × List DataPoint × List DataPoint) :=
  match parse_conll nfc lines with
  | ((train, validation, test), titles) =>
    match generate_dataset train (buildMapping titles wiki),
          generate_dataset validation (buildMapping titles wiki),
          generate_dataset test (buildMapping titles wiki) with
    | some t, some v, some te => some (t, v, te)
    | _, _, _ => none

/-- The filesystem trace of a whole run of main: nothing at all when the
pipeline aborts (all three splits are assembled before the first
File::create), otherwise the three write_dataset traces in order. -/
def fsTrace (nfc : Str → Str) (lines : List Str) (wiki : List MappingRecord)
    (dir : Str) : List FsEvent :=
  match pipeline nfc lines wiki with
  | some (t, v, te) =>
    write_dataset t (dir ++ str "/train.parquet") ++
    write_dataset v (dir ++ str "/validation.parquet") ++
    write_dataset te (dir ++ str "/test.parquet")
  | none => []

/-! ### Helper lemmas about the list combinators -/

/-- Appending a single binding at the end of an association list is only
visible to a lookup that fails on the original list. -/
lemma lookup_append_single (m : Mapping) (k : Str) (v : Nat × Option Nat) (t : Str) :
    lookup (m ++ [(k, v)]) t = orElseO (lookup m t) (if k = t then some v else none) := by
  induction m with
  | nil => simp [lookup, orElseO]
  | cons p m ih =>
    obtain ⟨k', v'⟩ := p
    by_cases h : k' = t <;> simp [lookup, h, ih, orElseO]

/-- A slice that lies inside the left part of an append ignores the right
part. -/
lemma slice_append_of_le (a b : Str) (s t : Nat) (h : t ≤ a.length) :
    slice (a ++ b) s t = slice a s t := by
  unfold slice
  rw [List.drop_append_eq_append_drop, List.take_append_eq_append_take]
  have h1 : t - s - (List.drop s a).length = 0 := by
    simp only [List.length_drop]
    omega
  rw [h1, List.take_zero, List.append_nil]

/-- The slice carved out exactly where a segment was appended returns that
segment. -/
lemma slice_at (a toks b : Str) :
    slice (a ++ toks ++ b) a.length (a.length + toks.length) = toks := by
  unfold slice
  have h1 : a.length + toks.length - a.length = toks.length := by omega
  rw [h1, List.append_assoc, List.drop_left, List.take_left]

/-- Successful mapOpt aligns input and output pointwise. -/
lemma mapOpt_forall₂ {α β : Type} (f : α → Option β) :
    ∀ (l : List α) (r : List β), mapOpt f l = some r →
      List.Forall₂ (fun a b => f a = some b) l r := by
  intro l
  induction l with
  | nil =>
    intro r h
    simp only [mapOpt, Option.some.injEq] at h
    subst h
    exact List.Forall₂.nil
  | cons a as ih =>
    intro r h
    rw [mapOpt] at h
    cases hfa : f a with
    | none => rw [hfa] at h; simp at h
    | some b =>
      rw [hfa] at h
      cases hma : mapOpt f as with
      | none => rw [hma] at h; simp at h
      | some bs =>
        rw [hma] at h
        simp only [Option.some.injEq] at h
        subst h
        exact List.Forall₂.cons hfa (ih bs hma)

/-- mapOpt fails as soon as any element fails. -/
lemma mapOpt_none {α β : Type} (f : α → Option β) :
    ∀ (l : List α) (a : α), a ∈ l → f a = none → mapOpt f l = none := by
  intro l
  induction l with
  | nil => intro a ha; simp at ha
  | cons b bs ih =>
    intro a ha hfa
    rcases List.mem_cons.mp ha with rfl | ha'
    · rw [mapOpt, hfa]
    · rw [mapOpt, ih a ha' hfa]
      cases f b <;> rfl

/-- Every group produced by group_by is nonempty and consists of elements
sharing the group key. -/
lemma group_by_sound {α β : Type} [DecidableEq β] (key : α → β) :
    ∀ (l : List α) (p : β × List α), p ∈ group_by key l →
      p.2 ≠ [] ∧ ∀ a ∈ p.2, key a = p.1 := by
  intro l
  induction l with
  | nil => intro p hp; simp [group_by] at hp
  | cons a as ih =>
    intro p hp
    rw [group_by] at hp
    cases hg : group_by key as with
    | nil =>
      rw [hg] at hp
      simp only [List.mem_singleton] at hp
      subst hp
      constructor
      · simp
      · intro x hx; simp at hx; subst hx; rfl
    | cons q rest =>
      obtain ⟨k, g⟩ := q
      rw [hg] at hp
      dsimp only at hp
      by_cases hk : key a = k
      · rw [if_pos hk] at hp
        rcases List.mem_cons.mp hp with rfl | hp'
        · refine ⟨by simp, ?_⟩
          intro x hx
          rcases List.mem_cons.mp hx with rfl | hx'
          · exact hk
          · exact (ih (k, g) (by rw [hg]; exact List.mem_cons_self _ _)).2 x hx'
        · exact ih p (by rw [hg]; exact List.mem_cons_of_mem _ hp')
      · rw [if_neg hk] at hp
        rcases List.mem_cons.mp hp with rfl | hp'
        · refine ⟨by simp, ?_⟩
          intro x hx
          simp at hx
          subst hx
          rfl
        · exact ih p (by rw [hg]; exact hp')

/-- Every element of a list lands in some group of group_by. -/
lemma group_by_complete {α β : Type} [DecidableEq β] (key : α → β) :
    ∀ (l : List α) (a : α), a ∈ l → ∃ p ∈ group_by key l, a ∈ p.2 := by
  intro l
  induction l with
  | nil => intro a ha; simp at ha
  | cons b bs ih =>
    intro a ha
    rw [group_by]
    cases hg : group_by key bs with
    | nil =>
      rcases List.mem_cons.mp ha with rfl | ha'
      · exact ⟨(key a, [a]), by simp⟩
      · obtain ⟨p, hp, _⟩ := ih a ha'
        rw [hg] at hp
        simp at hp
    | cons q rest =>
      obtain ⟨k, g⟩ := q
      dsimp only
      by_cases hk : key b = k
      · rw [if_pos hk]
        rcases List.mem_cons.mp ha with rfl | ha'
        · exact ⟨(k, a :: g), List.mem_cons_self _ _, List.mem_cons_self _ _⟩
        · obtain ⟨p, hp, hap⟩ := ih a ha'
          rw [hg] at hp
          rcases List.mem_cons.mp hp with rfl | hp'
          · exact ⟨(k, b :: g), List.mem_cons_self _ _, List.mem_cons_of_mem _ hap⟩
          · exact ⟨p, List.mem_cons_of_mem _ hp', hap⟩
      · rw [if_neg hk]
        rcases List.mem_cons.mp ha with rfl | ha'
        · exact ⟨(key a, [a]), List.mem_cons_self _ _, List.mem_cons_self _ _⟩
        · obtain ⟨p, hp, hap⟩ := ih a ha'
          rw [hg] at hp
          exact ⟨p, List.mem_cons_of_mem _ hp, hap⟩

/-- Strengthen a pointwise relation with a property of the left list. -/
lemma forall₂_and_left {α β : Type} {R : α → β → Prop} {Q : α → Prop} :
    ∀ {l₁ : List α} {l₂ : List β}, List.Forall₂ R l₁ l₂ → (∀ a ∈ l₁, Q a) →
      List.Forall₂ (fun a b => Q a ∧ R a b) l₁ l₂ := by
  intro l₁ l₂ h
  induction h with
  | nil => intro _; exact List.Forall₂.nil
  | @cons a b l₁ l₂ hr _ ih =>
    intro hq
    exact List.Forall₂.cons ⟨hq a (List.mem_cons_self _ _), hr⟩
      (ih (fun x hx => hq x (List.mem_cons_of_mem _ hx)))

/-- Each element on the right of a Forall₂ has a related partner on the
left. -/
lemma mem_right_of_forall₂ {α β : Type} {R : α → β → Prop} :
    ∀ {l₁ : List α} {l₂ : List β}, List.Forall₂ R l₁ l₂ →
      ∀ b ∈ l₂, ∃ a ∈ l₁, R a b := by
  intro l₁ l₂ h
  induction h with
  | nil => intro b hb; simp at hb
  | @cons a b' l₁ l₂ hr _ ih =>
    intro b hb
    rcases List.mem_cons.mp hb with rfl | hb'
    · exact ⟨a, List.mem_cons_self _ _, hr⟩
    · obtain ⟨x, hx, hxr⟩ := ih b hb'
      exact ⟨x, List.mem_cons_of_mem _ hx, hxr⟩

/-! ### The span-reconstruction invariants of generate_dataset -/

/-- Whether a tag gives rise to a mention. -/
def isMention (t : EntityType) : Bool :=
  match t with
  | EntityType.NoTag => false
  | _ => true

/-- buildGroup on a NoTag group: text extended, no mention. -/
lemma buildGroup_noTag (m : Mapping) (text : Str) (g : EntityType × List (Str × EntityType))
    (h : g.1 = EntityType.NoTag) :
    buildGroup m text g =
      some (text ++ (if text.isEmpty then [] else [' ']) ++ joinSp (g.2.map (fun x => x.1)),
        none) := by
  unfold buildGroup
  rw [h]

/-- buildGroup on an OutOfDistribution group: text extended, mention with
both identifiers absent. -/
lemma buildGroup_ood (m : Mapping) (text : Str) (g : EntityType × List (Str × EntityType))
    (h : g.1 = EntityType.OutOfDistribution) :
    buildGroup m text g =
      some (text ++ (if text.isEmpty then [] else [' ']) ++ joinSp (g.2.map (fun x => x.1)),
        some ⟨text.length + (if text.isEmpty then 0 else 1),
              text.length + (if text.isEmpty then 0 else 1) +
                (joinSp (g.2.map (fun x => x.1))).length,
              none, none⟩) := by
  unfold buildGroup
  rw [h]

/-- buildGroup on a resolvable InDistribution group. -/
lemma buildGroup_ind (m : Mapping) (text : Str) (g : EntityType × List (Str × EntityType))
    (title : Str) (p : Nat) (q : Option Nat)
    (h : g.1 = EntityType.InDistribution title) (hlk : lookup m title = some (p, q)) :
    buildGroup m text g =
      some (text ++ (if text.isEmpty then [] else [' ']) ++ joinSp (g.2.map (fun x => x.1)),
        some ⟨text.length + (if text.isEmpty then 0 else 1),
              text.length + (if text.isEmpty then 0 else 1) +
                (joinSp (g.2.map (fun x => x.1))).length,
              some p, q⟩) := by
  unfold buildGroup
  rw [h]
  dsimp only
  rw [hlk]

/-- buildGroup on an unresolvable InDistribution group panics (none). -/
lemma buildGroup_ind_none (m : Mapping) (text : Str) (g : EntityType × List (Str × EntityType))
    (title : Str)
    (h : g.1 = EntityType.InDistribution title) (hlk : lookup m title = none) :
    buildGroup m text g = none := by
  unfold buildGroup
  rw [h]
  dsimp only
  rw [hlk]

/-- The length of the optional separating space matches its count. -/
lemma pad_length (text : Str) :
    (if text.isEmpty then ([] : Str) else [' ']).length =
      (if text.isEmpty then 0 else 1) := by
  by_cases h0 : text.isEmpty <;> simp [h0]

/-- The three per-mention span facts, extracted from the position at which
the mention text was appended. -/
lemma mention_step {text0 ext1 toks textF : Str} {e0 : Entity}
    (hs : e0.start = text0.length + (if text0.isEmpty then 0 else 1))
    (he : e0.end_ = e0.start + toks.length)
    (hTF : textF = (text0 ++ (if text0.isEmpty then [] else [' '])) ++ toks ++ ext1) :
    e0.end_ = e0.start + toks.length ∧ e0.end_ ≤ textF.length ∧
      slice textF e0.start e0.end_ = toks := by
  have hs' : e0.start = (text0 ++ (if text0.isEmpty then ([] : Str) else [' '])).length := by
    rw [hs, List.length_append, pad_length]
  refine ⟨he, ?_, ?_⟩
  · rw [hTF, he, hs']
    simp [List.length_append]
    omega
  · rw [hTF, he, hs', slice_at]

/-- The master invariant of the inner assembly loop: a successful run
appends fresh text and fresh mentions; every fresh mention starts after
the inherited text, consecutive fresh mentions do not overlap, and each
fresh mention is aligned with its mention group: its width is the length
of the space-joined group tokens and the final text restricted to its
span is exactly that join. -/
lemma buildDoc_spec (m : Mapping) :
    ∀ (groups : List (EntityType × List (Str × EntityType))) (text0 : Str)
      (ents0 : List Entity) (textF : Str) (entsF : List Entity),
      buildDoc m groups text0 ents0 = some (textF, entsF) →
      ∃ (ext : Str) (newEnts : List Entity),
        textF = text0 ++ ext ∧
        entsF = ents0 ++ newEnts ∧
        (∀ e ∈ newEnts, text0.length ≤ e.start) ∧
        List.Chain' (fun a b => a.end_ ≤ b.start) newEnts ∧
        List.Forall₂
          (fun (g : EntityType × List (Str × EntityType)) (e : Entity) =>
            e.end_ = e.start + (joinSp (g.2.map (fun x => x.1))).length ∧
            e.end_ ≤ textF.length ∧
            slice textF e.start e.end_ = joinSp (g.2.map (fun x => x.1)))
          (groups.filter (fun g => isMention g.1)) newEnts := by
  intro groups
  induction groups with
  | nil =>
    intro text0 ents0 textF entsF h
    rw [buildDoc] at h
    simp only [Option.some.injEq, Prod.mk.injEq] at h
    obtain ⟨h1, h2⟩ := h
    subst h1
    subst h2
    exact ⟨[], [], by simp, by simp, by simp, by simp, by simp⟩
  | cons g gs ih =>
    intro text0 ents0 textF entsF h
    rw [buildDoc] at h
    cases hbg : buildGroup m text0 g with
    | none => rw [hbg] at h; simp at h
    | some pr =>
      obtain ⟨text1, eo⟩ := pr
      rw [hbg] at h
      dsimp only at h
      obtain ⟨ext1, new1, hT, hE, hge, hch, hfa⟩ := ih text1 (ents0 ++ eo.toList) textF entsF h
      cases hg1 : g.1 with
      | NoTag =>
        rw [buildGroup_noTag m text0 g hg1] at hbg
        simp only [Option.some.injEq, Prod.mk.injEq] at hbg
        obtain ⟨ht1, heo⟩ := hbg
        refine ⟨(if text0.isEmpty then [] else [' ']) ++ joinSp (g.2.map (fun x => x.1)) ++ ext1,
          new1, ?_, ?_, ?_, hch, ?_⟩
        · rw [hT, ← ht1]
          simp [List.append_assoc]
        · rw [hE, ← heo]
          simp
        · intro e he
          have h1 := hge e he
          have h2 : text0.length ≤ text1.length := by
            rw [← ht1]
            simp [List.length_append]
          omega
        · simpa [List.filter_cons, isMention, hg1] using hfa
      | OutOfDistribution =>
        rw [buildGroup_ood m text0 g hg1] at hbg
        simp only [Option.some.injEq, Prod.mk.injEq] at hbg
        obtain ⟨ht1, heo⟩ := hbg
        have hlen1 : text1.length =
            text0.length + (if text0.isEmpty then 0 else 1) +
              (joinSp (g.2.map (fun x => x.1))).length := by
          rw [← ht1, List.length_append, List.length_append, pad_length]
        have hTF : textF =
            (text0 ++ (if text0.isEmpty then [] else [' '])) ++
              joinSp (g.2.map (fun x => x.1)) ++ ext1 := by
          rw [hT, ← ht1]
        obtain ⟨hw, hble, hbsl⟩ := @mention_step text0 ext1
          (joinSp (g.2.map (fun x => x.1))) textF
          ⟨text0.length + (if text0.isEmpty then 0 else 1),
           text0.length + (if text0.isEmpty then 0 else 1) +
             (joinSp (g.2.map (fun x => x.1))).length, none, none⟩
          rfl rfl hTF
        refine ⟨(if text0.isEmpty then [] else [' ']) ++ joinSp (g.2.map (fun x => x.1)) ++ ext1,
          (⟨text0.length + (if text0.isEmpty then 0 else 1),
            text0.length + (if text0.isEmpty then 0 else 1) +
              (joinSp (g.2.map (fun x => x.1))).length, none, none⟩ : Entity) :: new1,
          hTF.trans (by simp [List.append_assoc]), ?_, ?_, ?_, ?_⟩
        · rw [hE, ← heo]
          simp
        · intro e he
          rcases List.mem_cons.mp he with rfl | he'
          · simp
          · have h1 := hge e he'
            omega
        · refine List.chain'_cons'.mpr ⟨?_, hch⟩
          intro y hy
          have h1 := hge y (List.mem_of_mem_head? hy)
          simp only
          omega
        · rw [List.filter_cons]
          have : isMention g.1 = true := by rw [hg1]; rfl
          rw [if_pos this]
          exact List.Forall₂.cons ⟨hw, hble, hbsl⟩ hfa
      | InDistribution title =>
        cases hlk : lookup m title with
        | none =>
          rw [buildGroup_ind_none m text0 g title hg1 hlk] at hbg
          simp at hbg
        | some pq =>
          obtain ⟨p, q⟩ := pq
          rw [buildGroup_ind m text0 g title p q hg1 hlk] at hbg
          simp only [Option.some.injEq, Prod.mk.injEq] at hbg
          obtain ⟨ht1, heo⟩ := hbg
          have hlen1 : text1.length =
              text0.length + (if text0.isEmpty then 0 else 1) +
                (joinSp (g.2.map (fun x => x.1))).length := by
            rw [← ht1, List.length_append, List.length_append, pad_length]
          have hTF : textF =
              (text0 ++ (if text0.isEmpty then [] else [' '])) ++
                joinSp (g.2.map (fun x => x.1)) ++ ext1 := by
            rw [hT, ← ht1]
          obtain ⟨hw, hble, hbsl⟩ := @mention_step text0 ext1
            (joinSp (g.2.map (fun x => x.1))) textF
            ⟨text0.length + (if text0.isEmpty then 0 else 1),
             text0.length + (if text0.isEmpty then 0 else 1) +
               (joinSp (g.2.map (fun x => x.1))).length, some p, q⟩
            rfl rfl hTF
          refine ⟨(if text0.isEmpty then [] else [' ']) ++ joinSp (g.2.map (fun x => x.1)) ++ ext1,
            (⟨text0.length + (if text0.isEmpty then 0 else 1),
              text0.length + (if text0.isEmpty then 0 else 1) +
                (joinSp (g.2.map (fun x => x.1))).length, some p, q⟩ : Entity) :: new1,
            hTF.trans (by simp [List.append_assoc]), ?_, ?_, ?_, ?_⟩
          · rw [hE, ← heo]
            simp
          · intro e he
            rcases List.mem_cons.mp he with rfl | he'
            · simp
            · have h1 := hge e he'
              omega
          · refine List.chain'_cons'.mpr ⟨?_, hch⟩
            intro y hy
            have h1 := hge y (List.mem_of_mem_head? hy)
            simp only
            omega
          · rw [List.filter_cons]
            have : isMention g.1 = true := by rw [hg1]; rfl
            rw [if_pos this]
            exact List.Forall₂.cons ⟨hw, hble, hbsl⟩ hfa

/-- buildDoc fails whenever any group of the document carries an
InDistribution tag whose title the mapping cannot resolve. -/
lemma buildDoc_none (m : Mapping) :
    ∀ (groups : List (EntityType × List (Str × EntityType)))
      (k : EntityType) (g2 : List (Str × EntityType)) (t : Str),
      (k, g2) ∈ groups → k = EntityType.InDistribution t → lookup m t = none →
      ∀ (text : Str) (ents : List Entity), buildDoc m groups text ents = none := by
  intro groups
  induction groups with
  | nil => intro k g2 t hmem; simp at hmem
  | cons g gs ih =>
    intro k g2 t hmem hk hlk text ents
    rw [buildDoc]
    rcases List.mem_cons.mp hmem with heq | hmem'
    · have hg1 : g.1 = EntityType.InDistribution t := by
        rw [← heq]
        exact hk
      rw [buildGroup_ind_none m text g t hg1 hlk]
    · cases hbg : buildGroup m text g with
      | none => rfl
      | some pr =>
        obtain ⟨text1, eo⟩ := pr
        dsimp only
        exact ih k g2 t hmem' hk hlk text1 (ents ++ eo.toList)

/-- A successful generate_dataset aligns document groups and records: the
record carries the group key as document id and its text and mentions
are exactly what the inner loop built from the group. -/
lemma generate_forall₂ (split : List TokenRecord) (mapping : Mapping) (res : List DataPoint)
    (h : generate_dataset split mapping = some res) :
    List.Forall₂
      (fun (doc : Nat × List TokenRecord) (dp : DataPoint) =>
        dp.document_id = doc.1 ∧
        buildDoc mapping
          (group_by (fun p : Str × EntityType => p.2)
            (doc.2.map (fun x => (x.token, x.entity)))) [] [] = some (dp.text, dp.entities))
      (group_by (fun t => t.document_id) split) res := by
  have h2 := mapOpt_forall₂ _ _ _ h
  refine h2.imp ?_
  intro doc dp hf
  cases hbd : buildDoc mapping
      (group_by (fun p : Str × EntityType => p.2)
        (doc.2.map (fun x => (x.token, x.entity)))) [] [] with
  | none => rw [hbd] at hf; simp at hf
  | some pr =>
    obtain ⟨text, ents⟩ := pr
    rw [hbd] at hf
    dsimp only at hf
    simp only [Option.some.injEq] at hf
    subst hf
    exact ⟨rfl, rfl⟩

/-- generate_dataset fails (the source panics) whenever the split contains
an InDistribution token whose title the mapping cannot resolve. -/
lemma generate_none (split : List TokenRecord) (mapping : Mapping) (tok : TokenRecord)
    (t : Str) (hmem : tok ∈ split) (hent : tok.entity = EntityType.InDistribution t)
    (hlk : lookup mapping t = none) :
    generate_dataset split mapping = none := by
  obtain ⟨doc, hdoc, htok⟩ :=
    group_by_complete (fun tr : TokenRecord => tr.document_id) split tok hmem
  apply mapOpt_none _ _ doc hdoc
  dsimp only
  have hpair : (tok.token, tok.entity) ∈ doc.2.map (fun x => (x.token, x.entity)) :=
    List.mem_map_of_mem _ htok
  obtain ⟨gp, hgp, hpg⟩ :=
    group_by_complete (fun p : Str × EntityType => p.2) _ _ hpair
  have hkey := (group_by_sound (fun p : Str × EntityType => p.2) _ gp hgp).2 _ hpg
  have hgp1 : gp.1 = EntityType.InDistribution t := by
    rw [← hkey]
    exact hent
  rw [buildDoc_none mapping _ gp.1 gp.2 t (by rwa [show (gp.1, gp.2) = gp from rfl])
    hgp1 hlk [] []]

/-- From non-overlap and well-formed spans, starts are nondecreasing. -/
lemma chain'_weaken :
    ∀ (l : List Entity), (∀ e ∈ l, e.start ≤ e.end_) →
      List.Chain' (fun a b => a.end_ ≤ b.start) l →
      List.Chain' (fun a b => a.start ≤ b.start) l := by
  intro l
  induction l with
  | nil => intro _ _; exact List.chain'_nil
  | cons a l ih =>
    intro hse hch
    rcases List.chain'_cons'.mp hch with ⟨hhd, htl⟩
    refine List.chain'_cons'.mpr
      ⟨?_, ih (fun e he => hse e (List.mem_cons_of_mem _ he)) htl⟩
    intro y hy
    have h1 := hhd y hy
    have h2 := hse a (List.mem_cons_self _ _)
    omega

/-! ### Behaviour of the parser loop -/

/-- Empty lines are skipped. -/
lemma parseLine_nil (nfc : Str → Str) (st : ParseState) : parseLine nfc st [] = st := rfl

/-- pushToken never changes the current document id. -/
lemma pushToken_document_id (st : ParseState) (tok : TokenRecord) :
    (pushToken st tok).document_id = st.document_id := by
  cases h : st.document_split <;> simp [pushToken, h]

/-- pushToken never changes the current split. -/
lemma pushToken_document_split (st : ParseState) (tok : TokenRecord) :
    (pushToken st tok).document_split = st.document_split := by
  cases h : st.document_split <;> simp [pushToken, h]

/-- pushToken never changes the title set. -/
lemma pushToken_titles (st : ParseState) (tok : TokenRecord) :
    (pushToken st tok).titles = st.titles := by
  cases h : st.document_split <;> simp [pushToken, h]

/-- pushToken appends to train exactly when the current split is Train. -/
lemma pushToken_train (st : ParseState) (tok : TokenRecord) :
    (pushToken st tok).train =
      st.train ++ (if st.document_split = Split.Train then [tok] else []) := by
  cases h : st.document_split <;> simp [pushToken, h]

/-- pushToken appends to validation exactly when the current split is
Validation. -/
lemma pushToken_validation (st : ParseState) (tok : TokenRecord) :
    (pushToken st tok).validation =
      st.validation ++ (if st.document_split = Split.Validation then [tok] else []) := by
  cases h : st.document_split <;> simp [pushToken, h]

/-- pushToken appends to test exactly when the current split is Test. -/
lemma pushToken_test (st : ParseState) (tok : TokenRecord) :
    (pushToken st tok).test =
      st.test ++ (if st.document_split = Split.Test then [tok] else []) := by
  cases h : st.document_split <;> simp [pushToken, h]

/-- A nonempty single-field line on which the regex search succeeds only
updates the current document id and split. -/
lemma parseLine_boundary (nfc : Str → Str) (st : ParseState) (line : Str)
    (id : Nat) (marker : Str) (h0 : line ≠ [])
    (h1 : (splitTab line).length = 1)
    (h2 : findDocstart (splitTab line).headI = some (id, marker)) :
    parseLine nfc st line =
      { st with document_id := id, document_split := markerToSplit marker } := by
  unfold parseLine
  rw [if_neg (by simpa [List.length_eq_zero] using h0), if_pos h1, h2]

/-- Any other nonempty line produces exactly one token, tagged by the
field count, text U-normalised field 0, current document id; the token
is appended to the current split and, for a Candidate, the stripped and
normalised title is added to the title set. -/
lemma parseLine_token (nfc : Str → Str) (st : ParseState) (line : Str)
    (h0 : line ≠ []) (hb : ¬ isBoundary line) :
    parseLine nfc st line =
      { pushToken st
          ⟨st.document_id, nfc (splitTab line).headI,
           if (splitTab line).length = 4 then EntityType.OutOfDistribution
           else if 4 < (splitTab line).length then
             EntityType.InDistribution (nfc (((splitTab line).getD 4 []).drop 29))
           else EntityType.NoTag⟩
        with titles :=
          if 4 < (splitTab line).length then
            insertTitle st.titles (nfc (((splitTab line).getD 4 []).drop 29))
          else st.titles } := by
  unfold parseLine
  rw [if_neg (by simpa [List.length_eq_zero] using h0)]
  have hnone : (if (splitTab line).length = 1
      then findDocstart (splitTab line).headI else none) = none := by
    by_cases h1 : (splitTab line).length = 1
    · rw [if_pos h1]
      cases hf : findDocstart (splitTab line).headI with
      | none => rfl
      | some r => exact absurd ⟨h1, by rw [hf]; rfl⟩ hb
    · rw [if_neg h1]
  rw [hnone]
  by_cases h4 : (splitTab line).length = 4
  · have h4' : ¬ 4 < (splitTab line).length := by omega
    simp only [if_pos h4, if_neg h4']
    rw [← pushToken_titles st
      ⟨st.document_id, nfc (splitTab line).headI, EntityType.OutOfDistribution⟩]
  · by_cases h5 : 4 < (splitTab line).length
    · simp only [if_neg h4, if_pos h5]
    · simp only [if_neg h4, if_neg h5]
      rw [← pushToken_titles st
        ⟨st.document_id, nfc (splitTab line).headI, EntityType.NoTag⟩]

/-- Componentwise form of parseLine_token: the produced token carries the
current document id and goes to the current split; state id and split
are unchanged. -/
lemma parseLine_token_parts (nfc : Str → Str) (st : ParseState) (line : Str)
    (h0 : line ≠ []) (hb : ¬ isBoundary line) :
    ∃ tok : TokenRecord,
      tok.document_id = st.document_id ∧
      (parseLine nfc st line).document_id = st.document_id ∧
      (parseLine nfc st line).document_split = st.document_split ∧
      (parseLine nfc st line).train =
        st.train ++ (if st.document_split = Split.Train then [tok] else []) ∧
      (parseLine nfc st line).validation =
        st.validation ++ (if st.document_split = Split.Validation then [tok] else []) ∧
      (parseLine nfc st line).test =
        st.test ++ (if st.document_split = Split.Test then [tok] else []) := by
  rw [parseLine_token nfc st line h0 hb]
  refine ⟨⟨st.document_id, nfc (splitTab line).headI,
    if (splitTab line).length = 4 then EntityType.OutOfDistribution
    else if 4 < (splitTab line).length then
      EntityType.InDistribution (nfc (((splitTab line).getD 4 []).drop 29))
    else EntityType.NoTag⟩, rfl, ?_, ?_, ?_, ?_, ?_⟩
  · exact pushToken_document_id st _
  · exact pushToken_document_split st _
  · exact pushToken_train st _
  · exact pushToken_validation st _
  · exact pushToken_test st _

/-- A run of non-boundary lines appends a block of tokens, all carrying
the current document id, to the current split, and leaves document id,
split, and the other two token sequences unchanged. -/
lemma foldl_no_boundary (nfc : Str → Str) :
    ∀ (lines : List Str) (st : ParseState), (∀ l ∈ lines, ¬ isBoundary l) →
      ∃ toks : List TokenRecord,
        (∀ t ∈ toks, t.document_id = st.document_id) ∧
        (lines.foldl (parseLine nfc) st).document_id = st.document_id ∧
        (lines.foldl (parseLine nfc) st).document_split = st.document_split ∧
        (lines.foldl (parseLine nfc) st).train =
          st.train ++ (if st.document_split = Split.Train then toks else []) ∧
        (lines.foldl (parseLine nfc) st).validation =
          st.validation ++ (if st.document_split = Split.Validation then toks else []) ∧
        (lines.foldl (parseLine nfc) st).test =
          st.test ++ (if st.document_split = Split.Test then toks else []) := by
  intro lines
  induction lines with
  | nil =>
    intro st _
    exact ⟨[], by simp, rfl, rfl, by simp, by simp, by simp⟩
  | cons l ls ih =>
    intro st hnb
    by_cases h0 : l = []
    · subst h0
      have hstep : parseLine nfc st [] = st := rfl
      simpa only [List.foldl_cons, hstep] using
        ih st (fun x hx => hnb x (List.mem_cons_of_mem _ hx))
    · obtain ⟨tok, htokid, hid1, hsp1, htr1, hva1, hte1⟩ :=
        parseLine_token_parts nfc st l h0 (hnb l (List.mem_cons_self _ _))
      obtain ⟨toks, htoksid, hid2, hsp2, htr2, hva2, hte2⟩ :=
        ih (parseLine nfc st l) (fun x hx => hnb x (List.mem_cons_of_mem _ hx))
      refine ⟨tok :: toks, ?_, ?_, ?_, ?_, ?_, ?_⟩
      · intro x hx
        rcases List.mem_cons.mp hx with rfl | hx'
        · exact htokid
        · rw [htoksid x hx', hid1]
      · rw [List.foldl_cons, hid2, hid1]
      · rw [List.foldl_cons, hsp2, hsp1]
      · rw [List.foldl_cons, htr2, htr1, hsp1]
        cases hsp : st.document_split <;> simp [hsp]
      · rw [List.foldl_cons, hva2, hva1, hsp1]
        cases hsp : st.document_split <;> simp [hsp]
      · rw [List.foldl_cons, hte2, hte1, hsp1]
        cases hsp : st.document_split <;> simp [hsp]

/-- A run of boundary lines changes nothing but document id and split:
no token is emitted and the title set is untouched. -/
lemma foldl_all_boundary (nfc : Str → Str) :
    ∀ (lines : List Str) (st : ParseState), (∀ l ∈ lines, isBoundary l) →
      (lines.foldl (parseLine nfc) st).train = st.train ∧
      (lines.foldl (parseLine nfc) st).validation = st.validation ∧
      (lines.foldl (parseLine nfc) st).test = st.test ∧
      (lines.foldl (parseLine nfc) st).titles = st.titles := by
  intro lines
  induction lines with
  | nil => intro st _; exact ⟨rfl, rfl, rfl, rfl⟩
  | cons l ls ih =>
    intro st hab
    have hbl := hab l (List.mem_cons_self _ _)
    have h0 : l ≠ [] := by
      rintro rfl
      exact absurd hbl (by decide)
    obtain ⟨⟨id, marker⟩, hf⟩ := Option.isSome_iff_exists.mp hbl.2
    have hstep := parseLine_boundary nfc st l id marker h0 hbl.1 hf
    have ihs := ih { st with document_id := id, document_split := markerToSplit marker }
      (fun x hx => hab x (List.mem_cons_of_mem _ hx))
    rw [List.foldl_cons, hstep]
    exact ihs

/-- Closure of the title-set invariant: every InDistribution token stored
in any of the three sequences has its title in the title set. -/
def TitlesInv (st : ParseState) : Prop :=
  ∀ tok ∈ st.train ++ st.validation ++ st.test,
    ∀ t : Str, tok.entity = EntityType.InDistribution t → t ∈ st.titles

/-- Inserting keeps previous members. -/
lemma insertTitle_mem_of_mem (ts : List Str) (x y : Str) (hx : x ∈ ts) :
    x ∈ insertTitle ts y := by
  unfold insertTitle
  by_cases h : y ∈ ts <;> simp [h, hx]

/-- Inserting makes the inserted title a member. -/
lemma insertTitle_self (ts : List Str) (x : Str) : x ∈ insertTitle ts x := by
  unfold insertTitle
  by_cases h : x ∈ ts <;> simp [h]

/-- Membership in the three sequences after a pushToken. -/
lemma mem_pushToken (st : ParseState) (tok' x : TokenRecord) :
    x ∈ (pushToken st tok').train ++ (pushToken st tok').validation ++
        (pushToken st tok').test ↔
      (x ∈ st.train ++ st.validation ++ st.test ∨ x = tok') := by
  cases hsp : st.document_split <;>
    simp [pushToken, hsp, List.mem_append] <;> tauto

/-- parseLine preserves the title-set invariant. -/
lemma parseLine_titles_inv (nfc : Str → Str) (st : ParseState) (line : Str)
    (h : TitlesInv st) : TitlesInv (parseLine nfc st line) := by
  by_cases h0 : line = []
  · subst h0
    exact h
  by_cases hb : isBoundary line
  · obtain ⟨⟨id, marker⟩, hf⟩ := Option.isSome_iff_exists.mp hb.2
    rw [parseLine_boundary nfc st line id marker h0 hb.1 hf]
    exact h
  rw [parseLine_token nfc st line h0 hb]
  intro tok hmem t hent
  have hmem' : tok ∈ (pushToken st
      ⟨st.document_id, nfc (splitTab line).headI,
       if (splitTab line).length = 4 then EntityType.OutOfDistribution
       else if 4 < (splitTab line).length then
         EntityType.InDistribution (nfc (((splitTab line).getD 4 []).drop 29))
       else EntityType.NoTag⟩).train ++ (pushToken st
      ⟨st.document_id, nfc (splitTab line).headI,
       if (splitTab line).length = 4 then EntityType.OutOfDistribution
       else if 4 < (splitTab line).length then
         EntityType.InDistribution (nfc (((splitTab line).getD 4 []).drop 29))
       else EntityType.NoTag⟩).validation ++ (pushToken st
      ⟨st.document_id, nfc (splitTab line).headI,
       if (splitTab line).length = 4 then EntityType.OutOfDistribution
       else if 4 < (splitTab line).length then
         EntityType.InDistribution (nfc (((splitTab line).getD 4 []).drop 29))
       else EntityType.NoTag⟩).test := hmem
  rcases (mem_pushToken st _ tok).mp hmem' with hold | rfl
  · have ht := h tok hold t hent
    show t ∈ (if 4 < (splitTab line).length then
      insertTitle st.titles (nfc (((splitTab line).getD 4 []).drop 29)) else st.titles)
    by_cases h5 : 4 < (splitTab line).length
    · rw [if_pos h5]
      exact insertTitle_mem_of_mem _ _ _ ht
    · rwa [if_neg h5]
  · by_cases h4 : (splitTab line).length = 4
    · simp [h4] at hent
    · by_cases h5 : 4 < (splitTab line).length
      · simp only [if_neg h4, if_pos h5] at hent
        have htt : nfc (((splitTab line).getD 4 []).drop 29) = t := by
          simpa using hent
        show t ∈ (if 4 < (splitTab line).length then
          insertTitle st.titles (nfc (((splitTab line).getD 4 []).drop 29)) else st.titles)
        rw [if_pos h5, htt]
        exact insertTitle_self _ _
      · simp [h4, h5] at hent

/-! ### The mapping-construction loop -/

/-- orElseO with a none fallback is the identity. -/
lemma orElseO_none_right {α : Type} (a : Option α) : orElseO a none = a := by
  cases a <;> simp [orElseO]

/-- First-write-wins characterisation of the try_insert fold: a lookup
sees the initial table first, and otherwise the first streamed record
with that title, provided the title was requested. -/
lemma foldl_try_insert (titles : List Str) :
    ∀ (wiki : List MappingRecord) (m : Mapping) (t : Str),
      lookup
        (wiki.foldl
          (fun m r =>
            if r.title ∈ titles then try_insert m r.title (r.pageid, r.qid) else m) m) t
        = orElseO (lookup m t) (if t ∈ titles then firstWiki wiki t else none) := by
  intro wiki
  induction wiki with
  | nil =>
    intro m t
    simp only [List.foldl_nil, firstWiki]
    by_cases ht : t ∈ titles <;> simp [ht, orElseO_none_right]
  | cons r rest ih =>
    intro m t
    rw [List.foldl_cons]
    by_cases hrt : r.title ∈ titles
    · rw [if_pos hrt]
      by_cases hocc : (lookup m r.title).isSome
      · rw [show try_insert m r.title (r.pageid, r.qid) = m from by
          unfold try_insert; rw [if_pos hocc], ih]
        by_cases hteq : r.title = t
        · subst hteq
          obtain ⟨v, hv⟩ := Option.isSome_iff_exists.mp hocc
          rw [hv]
          simp [orElseO]
        · rw [show firstWiki (r :: rest) t = firstWiki rest t from by
            rw [firstWiki, if_neg hteq]]
      · rw [show try_insert m r.title (r.pageid, r.qid) =
            m ++ [(r.title, (r.pageid, r.qid))] from by
          unfold try_insert; rw [if_neg hocc], ih, lookup_append_single]
        have hnone : lookup m r.title = none := Option.not_isSome_iff_eq_none.mp hocc
        by_cases hteq : r.title = t
        · subst hteq
          rw [hnone]
          rw [show firstWiki (r :: rest) r.title = some (r.pageid, r.qid) from by
            rw [firstWiki, if_pos rfl]]
          simp [orElseO, hrt]
        · rw [if_neg hteq, orElseO_none_right]
          rw [show firstWiki (r :: rest) t = firstWiki rest t from by
            rw [firstWiki, if_neg hteq]]
    · rw [if_neg hrt, ih]
      by_cases ht : t ∈ titles
      · rw [if_pos ht, if_pos ht]
        have hteq : r.title ≠ t := fun he => hrt (he ▸ ht)
        rw [show firstWiki (r :: rest) t = firstWiki rest t from by
          rw [firstWiki, if_neg hteq]]
      · rw [if_neg ht, if_neg ht]

/-! ### Claim theorems -/

/-- Claim C1 (amended): on the five-line input, the boundary line
(2 testa) has a space between the digits and the marker, so the regex
captures an empty split marker and the line routes to train with
document id 2; the 4-field line C yields an OutOfMapping mention.  The
train split therefore holds two documents: text A B with an
OutOfMapping mention over [0,1) and a Candidate mention over [2,3)
resolved via the mapping entry for Title, and document 2 with text C
and one OutOfMapping mention over [0,1); the validation split is empty. -/
theorem c1_scenario (p : Nat) (q : Option Nat) :
    parse_conll (fun s => s)
      [str "A\t_\t_\t_",
       str "B\t_\t_\t_\thttp://en.wikipedia.org/wiki/Title",
       str "",
       str "-DOCSTART- (2 testa)",
       str "C\t_\t_\t_"] =
      (([⟨0, str "A", EntityType.OutOfDistribution⟩,
         ⟨0, str "B", EntityType.InDistribution (str "Title")⟩,
         ⟨2, str "C", EntityType.OutOfDistribution⟩], [], []),
       [str "Title"]) ∧
    generate_dataset
      [⟨0, str "A", EntityType.OutOfDistribution⟩,
       ⟨0, str "B", EntityType.InDistribution (str "Title")⟩,
       ⟨2, str "C", EntityType.OutOfDistribution⟩]
      [(str "Title", (p, q))] =
      some [⟨0, str "A B", [⟨0, 1, none, none⟩, ⟨2, 3, some p, q⟩]⟩,
            ⟨2, str "C", [⟨0, 1, none, none⟩]⟩] ∧
    generate_dataset ([] : List TokenRecord) [(str "Title", (p, q))] = some [] :=
  ⟨rfl, rfl, rfl⟩

/-- Claim C1 counterexample: on the quoted five-line input the validation
split of the pipeline is empty — there is no validation document at all,
contradicting the claimed one-document validation split (the train split
receives the C document instead, and with a mention). -/
theorem c1_counterexample :
    ¬ ∃ res : List DataPoint,
        generate_dataset
          ((parse_conll (fun s => s)
            [str "A\t_\t_\t_",
             str "B\t_\t_\t_\thttp://en.wikipedia.org/wiki/Title",
             str "",
             str "-DOCSTART- (2 testa)",
             str "C\t_\t_\t_"]).1.2.1)
          [(str "Title", (7, some 42))] = some res ∧ res.length = 1 := by
  rintro ⟨res, hres, hlen⟩
  have h0 : generate_dataset
      ((parse_conll (fun s => s)
        [str "A\t_\t_\t_",
         str "B\t_\t_\t_\thttp://en.wikipedia.org/wiki/Title",
         str "",
         str "-DOCSTART- (2 testa)",
         str "C\t_\t_\t_"]).1.2.1)
      [(str "Title", (7, some 42))] = some [] := rfl
  rw [h0] at hres
  obtain rfl : ([] : List DataPoint) = res := by injection hres
  simp at hlen

/-- Claim C2 counterexample: the line with an empty field 0 and four
fields yields a token with empty text tagged OutOfMapping; assembly
produces a mention with start = end = 0, refuting start < end. -/
theorem c2_counterexample :
    parse_conll (fun s => s) [str "\t_\t_\t_"] =
      (([⟨0, [], EntityType.OutOfDistribution⟩], [], []), []) ∧
    generate_dataset [⟨0, [], EntityType.OutOfDistribution⟩] [] =
      some [⟨0, [], [⟨0, 0, none, none⟩]⟩] ∧
    ¬ (0 < 0) :=
  ⟨rfl, rfl, by omega⟩

/-- Claim C2 (amended): for every input token sequence and resolved
table, every mention of every produced record satisfies
0 ≤ start ≤ end ≤ length of the record text in scalar values, the width
end − start equals the length of the mention group's space-joined token
text, and the text restricted to [start, end) is exactly that join
(start < end holds except when the joined token text is empty). -/
theorem c2_offsets :
    ∀ (split : List TokenRecord) (mapping : Mapping) (res : List DataPoint),
      generate_dataset split mapping = some res →
      List.Forall₂
        (fun (doc : Nat × List TokenRecord) (dp : DataPoint) =>
          dp.document_id = doc.1 ∧
          List.Forall₂
            (fun (g : EntityType × List (Str × EntityType)) (e : Entity) =>
              e.start ≤ e.end_ ∧
              e.end_ ≤ dp.text.length ∧
              e.end_ = e.start + (joinSp (g.2.map (fun x => x.1))).length ∧
              slice dp.text e.start e.end_ = joinSp (g.2.map (fun x => x.1)))
            ((group_by (fun p : Str × EntityType => p.2)
                (doc.2.map (fun x => (x.token, x.entity)))).filter
              (fun g => isMention g.1))
            dp.entities)
        (group_by (fun t : TokenRecord => t.document_id) split) res := by
  intro split mapping res h
  refine (generate_forall₂ split mapping res h).imp ?_
  intro doc dp hdd
  obtain ⟨hid, hbd⟩ := hdd
  obtain ⟨ext, newEnts, hT, hE, hge, hch, hfa⟩ := buildDoc_spec mapping _ [] [] _ _ hbd
  refine ⟨hid, ?_⟩
  rw [show dp.entities = newEnts from by simpa using hE]
  refine hfa.imp ?_
  intro g e hprop
  obtain ⟨hw, hle, hsl⟩ := hprop
  exact ⟨by omega, hle, hw, hsl⟩

/-- Claim C2 witness: the single-token split evaluates as the amended
claim states. -/
theorem c2_offsets_witness :
    List.Forall₂
      (fun (doc : Nat × List TokenRecord) (dp : DataPoint) =>
        dp.document_id = doc.1 ∧
        List.Forall₂
          (fun (g : EntityType × List (Str × EntityType)) (e : Entity) =>
            e.start ≤ e.end_ ∧
            e.end_ ≤ dp.text.length ∧
            e.end_ = e.start + (joinSp (g.2.map (fun x => x.1))).length ∧
            slice dp.text e.start e.end_ = joinSp (g.2.map (fun x => x.1)))
          ((group_by (fun p : Str × EntityType => p.2)
              (doc.2.map (fun x => (x.token, x.entity)))).filter
            (fun g => isMention g.1))
          dp.entities)
      (group_by (fun t : TokenRecord => t.document_id)
        [⟨0, str "A", EntityType.OutOfDistribution⟩])
      [⟨0, str "A", [⟨0, 1, none, none⟩]⟩] :=
  c2_offsets [⟨0, str "A", EntityType.OutOfDistribution⟩] []
    [⟨0, str "A", [⟨0, 1, none, none⟩]⟩] rfl

/-- Claim C7 (amended): within every produced record the mention sequence
is ordered by start nondecreasing and adjacent mentions do not overlap
(end of one at most start of the next); starts are strictly increasing
except for empty mentions. -/
theorem c7_order :
    ∀ (split : List TokenRecord) (mapping : Mapping) (res : List DataPoint),
      generate_dataset split mapping = some res →
      ∀ dp ∈ res,
        List.Chain' (fun a b => a.end_ ≤ b.start) dp.entities ∧
        List.Chain' (fun a b => a.start ≤ b.start) dp.entities := by
  intro split mapping res h dp hdp
  obtain ⟨doc, hdoc, hR⟩ := mem_right_of_forall₂ (generate_forall₂ split mapping res h) dp hdp
  obtain ⟨hid, hbd⟩ := hR
  obtain ⟨ext, newEnts, hT, hE, hge, hch, hfa⟩ := buildDoc_spec mapping _ [] [] _ _ hbd
  rw [show dp.entities = newEnts from by simpa using hE]
  refine ⟨hch, chain'_weaken newEnts ?_ hch⟩
  intro e he
  obtain ⟨g, hg, hprop⟩ := mem_right_of_forall₂ hfa e he
  obtain ⟨hw, _, _⟩ := hprop
  omega

/-- Claim C7 counterexample: two adjacent empty-token mentions share
start = end = 0, so the starts are not strictly ascending. -/
theorem c7_counterexample :
    generate_dataset
      [⟨0, [], EntityType.OutOfDistribution⟩,
       ⟨0, [], EntityType.InDistribution (str "t")⟩]
      [(str "t", (1, none))] =
      some [⟨0, [], [⟨0, 0, none, none⟩, ⟨0, 0, some 1, none⟩]⟩] ∧
    ¬ List.Chain' (fun a b => a.start < b.start)
        [(⟨0, 0, none, none⟩ : Entity), ⟨0, 0, some 1, none⟩] :=
  ⟨rfl, fun h => Nat.lt_irrefl 0 (List.chain'_cons.mp h).1⟩

/-- Claim C7 witness: the order properties evaluate on a concrete run. -/
theorem c7_order_witness :
    List.Chain' (fun a b => a.end_ ≤ b.start)
      (DataPoint.mk 0 (str "A") [⟨0, 1, none, none⟩]).entities ∧
    List.Chain' (fun a b => a.start ≤ b.start)
      (DataPoint.mk 0 (str "A") [⟨0, 1, none, none⟩]).entities :=
  c7_order [⟨0, str "A", EntityType.OutOfDistribution⟩] []
    [⟨0, str "A", [⟨0, 1, none, none⟩]⟩] rfl
    ⟨0, str "A", [⟨0, 1, none, none⟩]⟩ (List.mem_singleton.mpr rfl)

/-- Claim C3: if any Candidate title of any split is absent from the
resolved table, the run aborts: the pipeline produces nothing and the
filesystem trace is empty, so no output file is created — all three
splits are assembled before the first file creation. -/
theorem c3_abort :
    ∀ (nfc : Str → Str) (lines : List Str) (wiki : List MappingRecord) (dir : Str)
      (train validation test : List TokenRecord) (titles : List Str),
      parse_conll nfc lines = ((train, validation, test), titles) →
      (∃ tok ∈ train ++ validation ++ test, ∃ t : Str,
          tok.entity = EntityType.InDistribution t ∧
          lookup (buildMapping titles wiki) t = none) →
      pipeline nfc lines wiki = none ∧ fsTrace nfc lines wiki dir = [] := by
  intro nfc lines wiki dir train validation test titles hp hex
  obtain ⟨tok, hmem, t, hent, hlk⟩ := hex
  have hnone : pipeline nfc lines wiki = none := by
    unfold pipeline
    rw [hp]
    dsimp only
    rcases List.mem_append.mp hmem with hmem' | hte
    · rcases List.mem_append.mp hmem' with htr | hva
      · have hg := generate_none train _ tok t htr hent hlk
        cases h1 : generate_dataset train (buildMapping titles wiki) <;>
          cases h2 : generate_dataset validation (buildMapping titles wiki) <;>
            cases h3 : generate_dataset test (buildMapping titles wiki) <;>
              first
              | rfl
              | (rw [h1] at hg; exact absurd hg (by simp))
      · have hg := generate_none validation _ tok t hva hent hlk
        cases h1 : generate_dataset train (buildMapping titles wiki) <;>
          cases h2 : generate_dataset validation (buildMapping titles wiki) <;>
            cases h3 : generate_dataset test (buildMapping titles wiki) <;>
              first
              | rfl
              | (rw [h2] at hg; exact absurd hg (by simp))
    · have hg := generate_none test _ tok t hte hent hlk
      cases h1 : generate_dataset train (buildMapping titles wiki) <;>
        cases h2 : generate_dataset validation (buildMapping titles wiki) <;>
          cases h3 : generate_dataset test (buildMapping titles wiki) <;>
            first
            | rfl
            | (rw [h3] at hg; exact absurd hg (by simp))
  refine ⟨hnone, ?_⟩
  unfold fsTrace
  rw [hnone]

/-- Claim C3 witness: a single Candidate line whose title is in neither
the corrections nor the (empty) stream aborts with an empty trace. -/
theorem c3_abort_witness :
    pipeline (fun s => s) [str "B\t_\t_\t_\thttp://en.wikipedia.org/wiki/Ttl"] [] = none ∧
    fsTrace (fun s => s) [str "B\t_\t_\t_\thttp://en.wikipedia.org/wiki/Ttl"] []
      (str "out") = [] :=
  c3_abort (fun s => s) [str "B\t_\t_\t_\thttp://en.wikipedia.org/wiki/Ttl"] [] (str "out")
    [⟨0, str "B", EntityType.InDistribution (str "Ttl")⟩] [] [] [str "Ttl"]
    rfl
    ⟨⟨0, str "B", EntityType.InDistribution (str "Ttl")⟩, by decide, str "Ttl", rfl, by decide⟩

/-- Claim C4: first-write-wins resolution — a lookup in the built table
returns the manual correction when one exists, and otherwise the first
streamed record with that title provided the title was requested;
corrections are inserted first and never replaced. -/
theorem c4_first_write_wins :
    ∀ (titles : List Str) (wiki : List MappingRecord) (t : Str),
      lookup (buildMapping titles wiki) t =
        orElseO (lookup corrections t)
          (if t ∈ titles then firstWiki wiki t else none) :=
  fun titles wiki t => foldl_try_insert titles wiki corrections t

/-- Claim C5: every nonempty non-boundary line is tab-split and produces
exactly one token with normalised field 0 as text, tagged OutOfMapping
at exactly 4 fields, Candidate of the 29-character-stripped normalised
field 4 above 4 fields (with the title inserted into the title set), and
NoTag below 4 fields; the token joins the current split. -/
theorem c5_classification (nfc : Str → Str) (st : ParseState) (line : Str)
    (h0 : line ≠ []) (hb : ¬ isBoundary line) :
    parseLine nfc st line =
      { pushToken st
          ⟨st.document_id, nfc (splitTab line).headI,
           if (splitTab line).length = 4 then EntityType.OutOfDistribution
           else if 4 < (splitTab line).length then
             EntityType.InDistribution (nfc (((splitTab line).getD 4 []).drop 29))
           else EntityType.NoTag⟩
        with titles :=
          if 4 < (splitTab line).length then
            insertTitle st.titles (nfc (((splitTab line).getD 4 []).drop 29))
          else st.titles } :=
  parseLine_token nfc st line h0 hb

/-- Claim C5 witness: a 4-field line from the initial state yields one
OutOfMapping-tagged train token. -/
theorem c5_classification_witness :
    parseLine (fun s => s) initState (str "X\ta\tb\tc") =
      { initState with train := [⟨0, str "X", EntityType.OutOfDistribution⟩] } :=
  c5_classification (fun s => s) initState (str "X\ta\tb\tc") (by decide) (by decide)

/-- Claim C6: token routing — a boundary line sets document id and split
for all subsequent lines; a stretch of non-boundary lines appends all
its tokens, stamped with the current document id, to the current split
only; and with no boundary at all everything lands in train with
document id 0. -/
theorem c6_routing (nfc : Str → Str) :
    (∀ (st : ParseState) (line : Str) (id : Nat) (marker : Str),
        line ≠ [] → (splitTab line).length = 1 →
        findDocstart (splitTab line).headI = some (id, marker) →
        parseLine nfc st line =
          { st with document_id := id, document_split := markerToSplit marker }) ∧
    (∀ (lines : List Str) (st : ParseState), (∀ l ∈ lines, ¬ isBoundary l) →
        ∃ toks : List TokenRecord,
          (∀ t ∈ toks, t.document_id = st.document_id) ∧
          (lines.foldl (parseLine nfc) st).document_id = st.document_id ∧
          (lines.foldl (parseLine nfc) st).document_split = st.document_split ∧
          (lines.foldl (parseLine nfc) st).train =
            st.train ++ (if st.document_split = Split.Train then toks else []) ∧
          (lines.foldl (parseLine nfc) st).validation =
            st.validation ++ (if st.document_split = Split.Validation then toks else []) ∧
          (lines.foldl (parseLine nfc) st).test =
            st.test ++ (if st.document_split = Split.Test then toks else [])) ∧
    (∀ (lines : List Str) (train validation test : List TokenRecord) (titles : List Str),
        (∀ l ∈ lines, ¬ isBoundary l) →
        parse_conll nfc lines = ((train, validation, test), titles) →
        validation = [] ∧ test = [] ∧ ∀ tok ∈ train, tok.document_id = 0) := by
  refine ⟨?_, ?_, ?_⟩
  · intro st line id marker h0 h1 h2
    exact parseLine_boundary nfc st line id marker h0 h1 h2
  · intro lines st h
    exact foldl_no_boundary nfc lines st h
  · intro lines train validation test titles hnb hp
    obtain ⟨toks, htoks, hid, hsp, htr, hva, hte⟩ := foldl_no_boundary nfc lines initState hnb
    rw [show parse_conll nfc lines =
        (((lines.foldl (parseLine nfc) initState).train,
          (lines.foldl (parseLine nfc) initState).validation,
          (lines.foldl (parseLine nfc) initState).test),
         (lines.foldl (parseLine nfc) initState).titles) from rfl] at hp
    simp only [Prod.mk.injEq] at hp
    obtain ⟨⟨hptr, hpva, hpte⟩, hpti⟩ := hp
    refine ⟨?_, ?_, ?_⟩
    · rw [← hpva, hva]
      simp [initState]
    · rw [← hpte, hte]
      simp [initState]
    · intro tok htok
      rw [← hptr, htr] at htok
      simp [initState] at htok
      exact htoks tok htok

/-- Claim C6 witness: a real-format testb boundary line routes subsequent
tokens to the test split with its document id. -/
theorem c6_routing_witness :
    parseLine (fun s => s) initState (str "-DOCSTART- (5testb x)") =
      { initState with document_id := 5, document_split := Split.Test } :=
  (c6_routing (fun s => s)).1 initState (str "-DOCSTART- (5testb x)") 5 (str "testb")
    (by decide) (by decide) (by decide)

/-- The title-set invariant is preserved by the whole fold. -/
lemma foldl_titles_inv (nfc : Str → Str) :
    ∀ (lines : List Str) (st : ParseState), TitlesInv st →
      TitlesInv (lines.foldl (parseLine nfc) st) := by
  intro lines
  induction lines with
  | nil => intro st h; exact h
  | cons l ls ih => intro st h; exact ih _ (parseLine_titles_inv nfc st l h)

/-- Claim C8 counterexample: the claimed atomicity — an incomplete run of
the write trace leaves no output at the path — fails: cutting the trace
after its very first step leaves a created file at the final path. -/
theorem c8_counterexample :
    ¬ (∀ (split : List DataPoint) (path : Str) (k : Nat),
        k < (write_dataset split path).length →
        ¬ fileExistsAfter (write_dataset split path) k path) :=
  fun h => h [] (str "train.parquet") 1 (by decide) (by decide)

/-- Claim C8 (amended): write_dataset is not atomic — it creates the file
directly at the final output path as its first filesystem action, before
the row group and the committing footer; a failure after creation leaves
an uncommitted fragment file at the path, and only the last step commits. -/
theorem c8_not_atomic :
    ∀ (split : List DataPoint) (path : Str),
      write_dataset split path =
        [FsEvent.create path, FsEvent.writeGroup path, FsEvent.finish path] ∧
      fileExistsAfter (write_dataset split path) 1 path ∧
      ¬ committedAfter (write_dataset split path) 1 path ∧
      ¬ committedAfter (write_dataset split path) 2 path ∧
      committedAfter (write_dataset split path) 3 path := by
  intro split path
  refine ⟨rfl, ?_, ?_, ?_, ?_⟩ <;>
    simp [write_dataset, fileExistsAfter, committedAfter]

/-- Claim C9: the title set returned by the parser contains the title of
every InDistribution token of all three returned sequences, so the
titles collected while parsing cover every title the assembler queries. -/
theorem c9_superset :
    ∀ (nfc : Str → Str) (lines : List Str)
      (train validation test : List TokenRecord) (titles : List Str),
      parse_conll nfc lines = ((train, validation, test), titles) →
      ∀ tok ∈ train ++ validation ++ test, ∀ t : Str,
        tok.entity = EntityType.InDistribution t → t ∈ titles := by
  intro nfc lines train validation test titles hp tok hmem t hent
  have hinv := foldl_titles_inv nfc lines initState
    (by intro x hx; simp [initState] at hx)
  rw [show parse_conll nfc lines =
      (((lines.foldl (parseLine nfc) initState).train,
        (lines.foldl (parseLine nfc) initState).validation,
        (lines.foldl (parseLine nfc) initState).test),
       (lines.foldl (parseLine nfc) initState).titles) from rfl] at hp
  simp only [Prod.mk.injEq] at hp
  obtain ⟨⟨hptr, hpva, hpte⟩, hpti⟩ := hp
  rw [← hpti]
  apply hinv tok _ t hent
  rw [hptr, hpva, hpte]
  exact hmem

/-- Claim C9 witness: the sample Candidate line has its title collected. -/
theorem c9_superset_witness : str "Title" ∈ [str "Title"] :=
  c9_superset (fun s => s) [str "B\t_\t_\t_\thttp://en.wikipedia.org/wiki/Title"]
    [⟨0, str "B", EntityType.InDistribution (str "Title")⟩] [] [] [str "Title"]
    rfl ⟨0, str "B", EntityType.InDistribution (str "Title")⟩ (by decide) (str "Title") rfl

/-- Claim C10: boundary lines emit no tokens (a corpus of boundary lines
parses to three empty sequences and an empty title set), and assembly
emits exactly one record per maximal nonempty run of tokens with equal
document id — in particular consecutive boundary lines produce no
record in any split, and no record comes from an empty token run. -/
theorem c10_empty_docs :
    (∀ (nfc : Str → Str) (lines : List Str), (∀ l ∈ lines, isBoundary l) →
        parse_conll nfc lines = (([], [], []), [])) ∧
    (∀ (split : List TokenRecord) (mapping : Mapping) (res : List DataPoint),
        generate_dataset split mapping = some res →
        List.Forall₂
          (fun (doc : Nat × List TokenRecord) (dp : DataPoint) =>
            doc.2 ≠ [] ∧ dp.document_id = doc.1)
          (group_by (fun t : TokenRecord => t.document_id) split) res) := by
  constructor
  · intro nfc lines hab
    obtain ⟨htr, hva, hte, hti⟩ := foldl_all_boundary nfc lines initState hab
    rw [show parse_conll nfc lines =
        (((lines.foldl (parseLine nfc) initState).train,
          (lines.foldl (parseLine nfc) initState).validation,
          (lines.foldl (parseLine nfc) initState).test),
         (lines.foldl (parseLine nfc) initState).titles) from rfl]
    rw [htr, hva, hte, hti]
    rfl
  · intro split mapping res h
    have hfa := generate_forall₂ split mapping res h
    have hne : ∀ doc ∈ group_by (fun t : TokenRecord => t.document_id) split, doc.2 ≠ [] :=
      fun doc hdoc => (group_by_sound _ split doc hdoc).1
    refine (forall₂_and_left hfa hne).imp ?_
    intro doc dp hprop
    exact ⟨hprop.1, hprop.2.1⟩

/-- Claim C10 witness: two consecutive boundary lines yield empty splits,
and a concrete one-token document gives one record for its run. -/
theorem c10_empty_docs_witness :
    parse_conll (fun s => s) [str "-DOCSTART- (1 x)", str "-DOCSTART- (2 y)"] =
      (([], [], []), []) ∧
    List.Forall₂
      (fun (doc : Nat × List TokenRecord) (dp : DataPoint) =>
        doc.2 ≠ [] ∧ dp.document_id = doc.1)
      (group_by (fun t : TokenRecord => t.document_id) [⟨5, str "A", EntityType.NoTag⟩])
      [⟨5, str "A", []⟩] :=
  ⟨(c10_empty_docs).1 (fun s => s)
      [str "-DOCSTART- (1 x)", str "-DOCSTART- (2 y)"] (by decide),
   (c10_empty_docs).2 [⟨5, str "A", EntityType.NoTag⟩] [] [⟨5, str "A", []⟩] rfl⟩

end Aida
